import Mathlib

/-!
# Verification of the quiz-analysis pipeline (src/quiz_analysis.py)

Shallow embedding of the analytical core of `quiz_analysis.py`:
the Performance Analyzer (`analyze_performance_data`), the Insight
Generator (`generate_insight_details`), the Persona Identifier
(`identify_student_persona`) and the Recommendation Generator
(`generate_recommendations`), together with the module-level pipeline
that wires them up.

Modelling conventions:
* A pandas `DataFrame` of historical submissions is a `HistDF`: a list of
  rows plus one flag per required column recording whether that column is
  present in the table (the source only ever tests column *presence*;
  when a computation runs, the guards have ensured the columns exist).
* Numeric cells (`accuracy`, `difficulty`, `score`) are rationals `ℚ`
  (the float arithmetic of the source is modelled exactly over `ℚ`).
* `submission_time` cells are strings, compared by Python string
  comparison, i.e. lexicographically by code point (`strLe` below);
  `pd.to_datetime(..., errors="coerce")` is modelled by a concrete
  parser `parseTime : String → Option Int` for the ISO-like layout
  `YYYY-MM-DD HH:MM:SS` (also with a `T` separator), returning `none`
  (pandas `NaT`) on parse failure.
* `DataFrame.sort_values(by, ascending=False)` is called with its
  default `kind="quicksort"` (numpy introsort), which guarantees *no*
  particular order among rows with equal keys.  An executable model
  must nevertheless pick some deterministic order; this embedding uses
  a descending insertion sort `isortLe`, which agrees with the source
  on the sorted key sequence (a descending-sorted permutation of the
  rows) but fixes a tie order the source does not guarantee.  No
  theorem below relies on the tie order.
* `groupby("topic")` uses its default `sort=True`: group keys are
  iterated in ascending topic order (`sortedTopics`).
* A `KeyError` escaping `groupby` on a missing column is modelled with
  `Except String`.  `Series.idxmin` skips NaN entries and, when every
  entry is NaN (pandas 1.x/2.x), yields the float NaN as the "index",
  modelled as `none`.
-/

namespace QuizAnalysis

/-- One row of the historical table: fields of a Submission record. -/
structure HistRow where
  topic : String
  accuracy : ℚ
  difficulty : ℚ
  score : ℚ
  submission_time : String
deriving DecidableEq

/-- The historical DataFrame: its rows plus, for each of the five columns
the Analyzer requires, whether that column is present in the table. -/
structure HistDF where
  hasTopic : Bool
  hasAccuracy : Bool
  hasDifficulty : Bool
  hasScore : Bool
  hasSubmissionTime : Bool
  rows : List HistRow
deriving DecidableEq

/-- One row of the `topic_stats` DataFrame: per-topic means. -/
structure TopicStat where
  topic : String
  accuracy : ℚ
  difficulty : ℚ
  score : ℚ
deriving DecidableEq

/-- One row of the `recent_trends` DataFrame after the Analyzer has
normalised `submission_time` (`none` models pandas `NaT`). -/
structure TrendRow where
  topic : String
  accuracy : ℚ
  difficulty : ℚ
  score : ℚ
  time : Option Int
deriving DecidableEq

/-! ## Python string comparison (lexicographic by code point) -/

/-- Strict lexicographic order on character lists, by code point: the
order Python uses when pandas sorts a column of `str` values. -/
def lexLt : List Char → List Char → Bool
  | _, [] => false
  | [], _ :: _ => true
  | a :: as, b :: bs =>
    if a.toNat < b.toNat then true
    else if b.toNat < a.toNat then false
    else lexLt as bs

/-- Python `<` on strings. -/
def strLt (a b : String) : Bool := lexLt a.data b.data

/-- Python `<=` on strings. -/
def strLe (a b : String) : Bool := strLt a b || a == b

/-! ## Timestamp parsing (`pd.to_datetime(..., errors="coerce")`) -/

/-- Decimal digit value of a character, if it is a digit. -/
def digitVal (c : Char) : Option Int :=
  if 48 ≤ c.toNat && c.toNat ≤ 57 then some ((c.toNat : Int) - 48) else none

/-- Two-digit decimal number. -/
def num2 (a b : Char) : Option Int := do
  let x ← digitVal a
  let y ← digitVal b
  pure (10 * x + y)

/-- Four-digit decimal number. -/
def num4 (a b c d : Char) : Option Int := do
  let x ← num2 a b
  let y ← num2 c d
  pure (100 * x + y)

/-- Model of `pd.to_datetime(s, errors="coerce")` on one cell: parses the
ISO-like layout `YYYY-MM-DD HH:MM:SS` (space or `T` separator) into a
linearly ordered timestamp code, and returns `none` (pandas `NaT`) for
anything unparseable, rather than raising. -/
def parseTime (s : String) : Option Int :=
  match s.data with
  | [y1, y2, y3, y4, c1, m1, m2, c2, d1, d2, sep, h1, h2, c3, n1, n2, c4, s1, s2] =>
    if (c1 = '-') && (c2 = '-') && (c3 = ':') && (c4 = ':') &&
       (sep = ' ' || sep = 'T') then do
      let y ← num4 y1 y2 y3 y4
      let mo ← num2 m1 m2
      let d ← num2 d1 d2
      let h ← num2 h1 h2
      let mi ← num2 n1 n2
      let sec ← num2 s1 s2
      if 1 ≤ mo && mo ≤ 12 && 1 ≤ d && d ≤ 31 && h ≤ 23 && mi ≤ 59 && sec ≤ 59 then
        pure (((((y * 13 + mo) * 32 + d) * 24 + h) * 60 + mi) * 60 + sec)
      else none
    else none
  | _ => none

/-! ## An insertion sort

`isortLe le` is a comparison sort: an element is inserted in front of
the first already-placed element `x` with `le r x`.  With
`le r x := key x ≤ key r` it sorts descending by `key`.  It stands in
for `sort_values(by=key, ascending=False)` whose default
`kind="quicksort"` leaves the relative order of equal keys
unspecified: both produce a permutation of the input whose key
sequence is descending, and no theorem below depends on which
permutation it is beyond that. -/

/-- Insert `r` in front of the first element `x` such that `le r x`. -/
def insertLe (le : α → α → Bool) (r : α) : List α → List α
  | [] => [r]
  | x :: xs => if le r x then r :: x :: xs else x :: insertLe le r xs

/-- Stable insertion sort with respect to `le`. -/
def isortLe (le : α → α → Bool) : List α → List α
  | [] => []
  | x :: xs => insertLe le x (isortLe le xs)

/-! ## Performance Analyzer (`analyze_performance_data`, lines 62-83) -/

/-- Models `required_cols.issubset(historical_df.columns)` (line 68). -/
def requiredColsPresent (df : HistDF) : Bool :=
  df.hasTopic && df.hasAccuracy && df.hasDifficulty && df.hasScore &&
    df.hasSubmissionTime

/-- Arithmetic mean of a list of rationals (pandas `mean` of a group;
groups are nonempty, so the zero-length case never arises). -/
def listMean (l : List ℚ) : ℚ := l.sum / l.length

/-- Insert a topic into a sorted duplicate-free list of topics. -/
def insertTopic (t : String) : List String → List String
  | [] => [t]
  | x :: xs =>
    if t = x then x :: xs
    else if strLt t x then t :: x :: xs
    else x :: insertTopic t xs

/-- The distinct topic values of the rows, in ascending order: the group
keys of `groupby("topic")` in its default (`sort=True`) iteration
order. -/
def sortedTopics (rows : List HistRow) : List String :=
  rows.foldr (fun r acc => insertTopic r.topic acc) []

/-- The rows of one `groupby("topic")` group. -/
def groupRows (rows : List HistRow) (t : String) : List HistRow :=
  rows.filter (fun r => r.topic == t)

/-- One row of `topic_stats`: the means of `accuracy`, `difficulty` and
`score` over one topic group (lines 73-77). -/
def topicStatRow (rows : List HistRow) (t : String) : TopicStat :=
  { topic := t
    accuracy := listMean ((groupRows rows t).map (fun r => r.accuracy))
    difficulty := listMean ((groupRows rows t).map (fun r => r.difficulty))
    score := listMean ((groupRows rows t).map (fun r => r.score)) }

/-- Models `historical_df.groupby("topic").agg(mean).reset_index()` (lines 73-77). -/
def computeTopicStats (rows : List HistRow) : List TopicStat :=
  (sortedTopics rows).map (topicStatRow rows)

/-- Comparison used by `sort_values(by="submission_time", ascending=False)`:
`r` is placed before `x` iff `x.submission_time ≤ r.submission_time`
(descending by the raw string key; the source guarantees nothing about
the relative order of equal keys). -/
def timeLeDesc (r x : HistRow) : Bool :=
  strLe x.submission_time r.submission_time

/-- Normalisation of one trend-window row: line 81 replaces the raw
`submission_time` string by `pd.to_datetime(..., errors="coerce")` of
itself (producing `NaT = none` on parse failure instead of aborting). -/
def normalizeRow (r : HistRow) : TrendRow :=
  { topic := r.topic
    accuracy := r.accuracy
    difficulty := r.difficulty
    score := r.score
    time := parseTime r.submission_time }

/-- The function `analyze_performance_data` (lines 62-83): if any required column is
missing, return two empty DataFrames; otherwise return the per-topic
means and the trend window: the first 5 rows of the table sorted by
`submission_time` descending (tie order among equal timestamps is a
model choice, see `isortLe`), with timestamps normalised. -/
def analyze_performance_data (df : HistDF) : List TopicStat × List TrendRow :=
  if requiredColsPresent df then
    (computeTopicStats df.rows,
      ((isortLe timeLeDesc df.rows).take 5).map normalizeRow)
  else ([], [])

/-! ## Insight Generator (`generate_insight_details`, lines 94-104) -/

/-- The weak-topic threshold of line 99. -/
def weakThreshold : ℚ := 6 / 10

/-- Models `recent_trends[recent_trends["accuracy"].diff() > 0]`: keep a row
iff its accuracy strictly exceeds the accuracy of the row immediately
before it in the window (`diff()` of the first row is NaN, and
`NaN > 0` is false, so the first row is never kept). -/
def improvAux (p : TrendRow) : List TrendRow → List TrendRow
  | [] => []
  | y :: ys => (if p.accuracy < y.accuracy then [y] else []) ++ improvAux y ys

/-- The improvement events of a trend window (line 102). -/
def improvementsOf : List TrendRow → List TrendRow
  | [] => []
  | x :: xs => improvAux x xs

/-- The function `generate_insight_details` (lines 94-104): the weak topics
(`accuracy < 0.6`, strict) and the improvement events. -/
def generate_insight_details (topic_stats : List TopicStat)
    (recent_trends : List TrendRow) : List TopicStat × List TrendRow :=
  (topic_stats.filter (fun r => decide (r.accuracy < weakThreshold)),
    improvementsOf recent_trends)

/-! ## Persona Identifier (`identify_student_persona`, lines 106-120) -/

/-- Sample variance (`ddof = 1`), defined only for two or more values;
a single-record group has standard deviation NaN, modelled as `none`.
`groupby("topic").std()` computes the sample standard deviation, the
square root of this; since the square root is strictly monotone on
nonnegative reals, `idxmin` over the standard deviations selects the
same topic as `idxmin` over the sample variances, which stay in `ℚ`. -/
def sampleVarOpt (l : List ℚ) : Option ℚ :=
  if l.length < 2 then none
  else some ((l.map (fun x => (x - listMean l) ^ 2)).sum / (l.length - 1 : ℕ))

/-- Models `groupby("topic").std()["accuracy"]`: per topic (ascending), the
sample variance of its accuracies standing in for the standard
deviation (`none` = NaN). -/
def stdPairs (rows : List HistRow) : List (String × Option ℚ) :=
  (sortedTopics rows).map
    (fun t => (t, sampleVarOpt ((groupRows rows t).map (fun r => r.accuracy))))

/-- Models `groupby("topic").mean()["accuracy"]`: per topic (ascending), the
mean of its accuracies. -/
def meanPairs (rows : List HistRow) : List (String × ℚ) :=
  (sortedTopics rows).map
    (fun t => (t, listMean ((groupRows rows t).map (fun r => r.accuracy))))

/-- Scan for `Series.idxmin`: keep the first position attaining the
strictly smallest defined (non-NaN) value. -/
def idxminAux : Option (String × ℚ) → List (String × Option ℚ) → Option (String × ℚ)
  | best, [] => best
  | best, (_, none) :: rest => idxminAux best rest
  | none, (t, some v) :: rest => idxminAux (some (t, v)) rest
  | some b, (t, some v) :: rest =>
    if v < b.2 then idxminAux (some (t, v)) rest else idxminAux (some b) rest

/-- Models `Series.idxmin` on a series with NaN holes: NaNs are skipped; on an
all-NaN series pandas 1.x/2.x yields NaN, modelled as `none`. -/
def idxminOpt (l : List (String × Option ℚ)) : Option String :=
  (idxminAux none l).map Prod.fst

/-- Scan for `Series.idxmax`: keep the first position attaining the
strictly largest value. -/
def idxmaxAux : String × ℚ → List (String × ℚ) → String × ℚ
  | b, [] => b
  | b, (t, v) :: rest =>
    if b.2 < v then idxmaxAux (t, v) rest else idxmaxAux b rest

/-- Models `Series.idxmax` (the mean series has no NaNs here). -/
def idxmaxOpt : List (String × ℚ) → Option (String × ℚ)
  | [] => none
  | q :: rest => some (idxmaxAux q rest)

/-- The sentinel string returned on insufficient data (line 111). -/
def insufficientMsg : String :=
  "Insufficient data to analyze student persona."

/-- The `KeyError` raised by `groupby("topic")` when the table has no
`topic` column (uncaught in the source). -/
def keyErrorTopicMsg : String := "KeyError: \x27topic\x27"

/-- Unreachable fallback label for an empty mean series (the guards
ensure the table, and hence every group, is non-empty). -/
def indexErrorMsg : String := "IndexError"

/-- What `identify_student_persona` hands back on success: either the
sentinel string of line 111, or the dict of lines 117-120.  The
`consistent` field is `none` when `idxmin` over the standard deviations
produced the float NaN (every group has a single record). -/
inductive StudentPersona where
  | sentinel (msg : String)
  | dict (consistent : Option String) (top : String)
deriving DecidableEq

/-- The function `identify_student_persona` (lines 106-120): sentinel when the table
is empty or lacks an `accuracy` column; otherwise groups by `topic`
(raising `KeyError` if that column is absent) and returns the dict of
the idxmin-of-std and idxmax-of-mean topics. -/
def identify_student_persona (df : HistDF) : Except String StudentPersona :=
  if df.rows.isEmpty || !df.hasAccuracy then
    .ok (.sentinel insufficientMsg)
  else if !df.hasTopic then
    .error keyErrorTopicMsg
  else
    match idxmaxOpt (meanPairs df.rows) with
    | some top => .ok (.dict (idxminOpt (stdPairs df.rows)) top.1)
    | none => .error indexErrorMsg

/-! ## Recommendation Generator (`generate_recommendations`, lines 150-170) -/

/-- Round to the nearest integer, ties to even (the rounding of Python
`format(x, ".2f")`, modelled on the exact rational rather than on the
binary double). -/
def roundHalfEven (q : ℚ) : ℤ :=
  let f : ℤ := Int.fdiv q.num (q.den : ℤ)
  let r : ℚ := q - (f : ℚ)
  if r < 1 / 2 then f
  else if (1 : ℚ) / 2 < r then f + 1
  else if f % 2 = 0 then f else f + 1

/-- Two-decimal-digit rendering of a natural number below 100. -/
def twoDigits (n : ℕ) : String :=
  (if n < 10 then "0" else "") ++ toString n

/-- Python `f"{q:.2f}"`. -/
def fmt2 (q : ℚ) : String :=
  let n : ℤ := roundHalfEven (q * 100)
  let m : ℕ := n.natAbs
  (if n < 0 then "-" else "") ++ toString (m / 100) ++ "." ++ twoDigits (m % 100)

/-- The fixed encouragement string of line 158. -/
def encourageMsg : String :=
  "No weak topics identified. Keep up the good work!"

/-- The weak-topic line of line 161. -/
def focusMsg (t : String) (a : ℚ) : String :=
  "Focus on the topic \x27" ++ t ++ "\x27 with an accuracy of " ++ fmt2 a ++ "."

/-- The strength line of line 165. -/
def leverageMsg (t : String) : String :=
  "Leverage your strength in \x27" ++ t ++ "\x27 to build confidence."

/-- The consistency line of line 166. -/
def maintainMsg (t : String) : String :=
  "Maintain consistency in \x27" ++ t ++ "\x27."

/-- The fixed fallback string of line 168. -/
def fallbackMsg : String :=
  "Unable to analyze persona due to insufficient data."

/-- How a float NaN in the persona dict prints inside an f-string. -/
def floatLabel : Option String → String
  | some s => s
  | none => "nan"

/-- The loop of lines 160-161: one line per weak-topic row, in table
order. -/
def weakRecs : List TopicStat → List String
  | [] => []
  | r :: rs => focusMsg r.topic r.accuracy :: weakRecs rs

/-- Lines 163-168: the persona-dependent tail of the recommendations
(`isinstance(student_persona, dict)`). -/
def personaRecs : StudentPersona → List String
  | .dict c t => [leverageMsg t, maintainMsg (floatLabel c)]
  | .sentinel _ => [fallbackMsg]

/-- The function `generate_recommendations` (lines 150-170). -/
def generate_recommendations (weak_topics : List TopicStat)
    (student_persona : StudentPersona) : List String :=
  (if weak_topics.isEmpty then [encourageMsg] else weakRecs weak_topics) ++
    personaRecs student_persona

/-! ## The module-level pipeline (lines 86-173)

`sort_values`, `head` and the `groupby` aggregations all allocate fresh
frames; the in-place column assignment of line 81 writes into the copy
`sort_values` returned, never into `historical_df` itself.  The pipeline
state therefore carries the historical table through unchanged, and
`FinalState.historicalFinal` records the table as it stands after every
stage has run. -/

/-- The values held by the module-level variables after line 173. -/
structure FinalState where
  topic_stats : List TopicStat
  recent_trends : List TrendRow
  weak_topics : List TopicStat
  improvement_trends : List TrendRow
  student_persona : StudentPersona
  recommendations : List String
  historicalFinal : HistDF
deriving DecidableEq

/-- How a run of the analysis part of the script ends. -/
inductive RunOutcome where
  | halted
  | crashed (msg : String)
  | finished (r : FinalState)
deriving DecidableEq

/-- Lines 86-173: analyze; `exit()` if `topic_stats` is empty (line 91);
insights; persona (whose `KeyError`, if any, crashes the run);
recommendations. -/
def runPipeline (df : HistDF) : RunOutcome :=
  let a := analyze_performance_data df
  if a.1.isEmpty then .halted
  else
    let w := generate_insight_details a.1 a.2
    match identify_student_persona df with
    | .error e => .crashed e
    | .ok p =>
      .finished
        { topic_stats := a.1
          recent_trends := a.2
          weak_topics := w.1
          improvement_trends := w.2
          student_persona := p
          recommendations := generate_recommendations w.1 p
          historicalFinal := df }

/-! ## Helper lemmas -/

/-- The weak-topic loop builds exactly one focus line per weak row, in
table order. -/
theorem weakRecs_eq_map (l : List TopicStat) :
    weakRecs l = l.map (fun r => focusMsg r.topic r.accuracy) := by
  induction l with
  | nil => rfl
  | cons r rs ih => simp [weakRecs, ih]

/-! ## Claims -/

/-- C3: for every historical table missing one or more required columns,
the Analyzer returns two empty results without raising, and the pipeline
halts before the Insight and Persona stages run. -/
theorem claim_C3 (df : HistDF) (h : requiredColsPresent df = false) :
    analyze_performance_data df = ([], []) ∧ runPipeline df = .halted := by
  have ha : analyze_performance_data df = ([], []) := by
    simp [analyze_performance_data, h]
  exact ⟨ha, by simp [runPipeline, ha]⟩

/-- Table missing the `score` column. -/
def dfNoScore : HistDF :=
  { hasTopic := true, hasAccuracy := true, hasDifficulty := true
    hasScore := false, hasSubmissionTime := true
    rows := [{ topic := "A", accuracy := 0, difficulty := 0, score := 0,
               submission_time := "" }] }

/-- Witness for C3 at a concrete table lacking `score`. -/
theorem claim_C3_witness :
    requiredColsPresent dfNoScore = false ∧
      (analyze_performance_data dfNoScore = ([], []) ∧
        runPipeline dfNoScore = .halted) :=
  ⟨by decide, claim_C3 dfNoScore (by decide)⟩

/-- C4: the weak-topic set is exactly the topic-statistics rows with
mean accuracy strictly below 0.6; a row with accuracy exactly 0.6 is
not weak. -/
theorem claim_C4 (ts : List TopicStat) (rt : List TrendRow) :
    (∀ r : TopicStat,
        r ∈ (generate_insight_details ts rt).1 ↔ r ∈ ts ∧ r.accuracy < 6 / 10)
    ∧ (generate_insight_details ts rt).1.Sublist ts
    ∧ ∀ r ∈ ts, r.accuracy = 6 / 10 → r ∉ (generate_insight_details ts rt).1 := by
  refine ⟨?_, List.filter_sublist _, ?_⟩
  · intro r
    simp [generate_insight_details, List.mem_filter, weakThreshold]
  · intro r _ he hmem
    rw [generate_insight_details, List.mem_filter] at hmem
    rw [weakThreshold, he] at hmem
    simp at hmem

/-- C6: on an empty table, or one without an `accuracy` column, the
Persona Identifier returns the sentinel string, and the Recommendation
Generator treats the sentinel by its non-dict branch (one fixed fallback
line) while a dict persona gets the two persona lines. -/
theorem claim_C6 (df : HistDF)
    (h : df.rows.isEmpty = true ∨ df.hasAccuracy = false) :
    identify_student_persona df = .ok (.sentinel insufficientMsg)
    ∧ (∀ weak : List TopicStat,
        generate_recommendations weak (.sentinel insufficientMsg) =
          (if weak.isEmpty then [encourageMsg] else weakRecs weak) ++
            [fallbackMsg])
    ∧ ∀ (weak : List TopicStat) (c : Option String) (t : String),
        generate_recommendations weak (.dict c t) =
          (if weak.isEmpty then [encourageMsg] else weakRecs weak) ++
            [leverageMsg t, maintainMsg (floatLabel c)] := by
  refine ⟨?_, fun weak => rfl, fun weak c t => rfl⟩
  rcases h with h | h <;> simp [identify_student_persona, h]

/-- The empty historical table. -/
def dfEmpty : HistDF :=
  { hasTopic := true, hasAccuracy := true, hasDifficulty := true
    hasScore := true, hasSubmissionTime := true, rows := [] }

/-- Witness for C6 at the empty table. -/
theorem claim_C6_witness :
    (dfEmpty.rows.isEmpty = true ∨ dfEmpty.hasAccuracy = false) ∧
      (identify_student_persona dfEmpty = .ok (.sentinel insufficientMsg)
      ∧ (∀ weak : List TopicStat,
          generate_recommendations weak (.sentinel insufficientMsg) =
            (if weak.isEmpty then [encourageMsg] else weakRecs weak) ++
              [fallbackMsg])
      ∧ ∀ (weak : List TopicStat) (c : Option String) (t : String),
          generate_recommendations weak (.dict c t) =
            (if weak.isEmpty then [encourageMsg] else weakRecs weak) ++
              [leverageMsg t, maintainMsg (floatLabel c)]) :=
  ⟨Or.inl (by decide), claim_C6 dfEmpty (Or.inl (by decide))⟩

/-- C7: the recommendation list is, in order: one encouragement line if
there are no weak topics, else one focus line per weak row in table
order (accuracy rendered to two decimals by `fmt2`); then the two
persona lines for a dict persona, else the one fallback line.  The
output is a pure function of the two inputs, so it is deterministic. -/
theorem claim_C7 (weak : List TopicStat) (p : StudentPersona) :
    generate_recommendations weak p =
      (if weak.isEmpty then [encourageMsg]
        else weak.map (fun r => focusMsg r.topic r.accuracy)) ++
        (match p with
          | .dict c t => [leverageMsg t, maintainMsg (floatLabel c)]
          | .sentinel _ => [fallbackMsg])
    ∧ (generate_recommendations weak p).length =
        (if weak.isEmpty then 1 else weak.length) +
          (match p with
            | .dict _ _ => 2
            | .sentinel _ => 1) := by
  have hmain : generate_recommendations weak p =
      (if weak.isEmpty then [encourageMsg]
        else weak.map (fun r => focusMsg r.topic r.accuracy)) ++
        (match p with
          | .dict c t => [leverageMsg t, maintainMsg (floatLabel c)]
          | .sentinel _ => [fallbackMsg]) := by
    cases p <;> simp [generate_recommendations, personaRecs, weakRecs_eq_map]
  refine ⟨hmain, ?_⟩
  rw [hmain]
  cases p <;> by_cases hw : weak.isEmpty <;> simp [hw]

/-- C8: whenever the pipeline runs to completion, every derived entity
equals its recomputation from the historical table, and the historical
table at the end of the run is the one the pipeline started from. -/
theorem claim_C8 (df : HistDF) (r : FinalState)
    (h : runPipeline df = .finished r) :
    r.historicalFinal = df
    ∧ r.topic_stats = (analyze_performance_data df).1
    ∧ r.recent_trends = (analyze_performance_data df).2
    ∧ r.weak_topics = (generate_insight_details r.topic_stats r.recent_trends).1
    ∧ r.improvement_trends =
        (generate_insight_details r.topic_stats r.recent_trends).2
    ∧ identify_student_persona df = .ok r.student_persona
    ∧ r.recommendations =
        generate_recommendations r.weak_topics r.student_persona := by
  unfold runPipeline at h
  by_cases he : (analyze_performance_data df).1.isEmpty
  · simp [he] at h
  · simp only [he, if_false] at h
    cases hid : identify_student_persona df with
    | error e => rw [hid] at h; simp at h
    | ok p =>
      rw [hid] at h
      simp only [] at h
      cases h
      simp

/-- Table used for the C8 witness: one row, accuracy 0.7. -/
def dfOneGood : HistDF :=
  { hasTopic := true, hasAccuracy := true, hasDifficulty := true
    hasScore := true, hasSubmissionTime := true
    rows := [{ topic := "A", accuracy := 7 / 10, difficulty := 1, score := 2,
               submission_time := "" }] }

/-- The final state the pipeline reaches on `dfOneGood`. -/
def fsOneGood : FinalState :=
  { topic_stats := [{ topic := "A", accuracy := 7 / 10, difficulty := 1,
                      score := 2 }]
    recent_trends := [{ topic := "A", accuracy := 7 / 10, difficulty := 1,
                        score := 2, time := none }]
    weak_topics := []
    improvement_trends := []
    student_persona := .dict none "A"
    recommendations := [encourageMsg, leverageMsg "A", maintainMsg "nan"]
    historicalFinal := dfOneGood }

/-- Witness for C8: on `dfOneGood` the pipeline finishes in `fsOneGood`. -/
theorem claim_C8_witness :
    runPipeline dfOneGood = .finished fsOneGood ∧
      (fsOneGood.historicalFinal = dfOneGood
      ∧ fsOneGood.topic_stats = (analyze_performance_data dfOneGood).1
      ∧ fsOneGood.recent_trends = (analyze_performance_data dfOneGood).2
      ∧ fsOneGood.weak_topics =
          (generate_insight_details fsOneGood.topic_stats
            fsOneGood.recent_trends).1
      ∧ fsOneGood.improvement_trends =
          (generate_insight_details fsOneGood.topic_stats
            fsOneGood.recent_trends).2
      ∧ identify_student_persona dfOneGood = .ok fsOneGood.student_persona
      ∧ fsOneGood.recommendations =
          generate_recommendations fsOneGood.weak_topics
            fsOneGood.student_persona) := by
  have hw : runPipeline dfOneGood = .finished fsOneGood := by
    norm_num [runPipeline, analyze_performance_data, requiredColsPresent,
      computeTopicStats, sortedTopics, insertTopic, topicStatRow, groupRows,
      listMean, isortLe, insertLe, timeLeDesc, strLe, strLt, lexLt,
      normalizeRow, parseTime, generate_insight_details, weakThreshold,
      improvementsOf, improvAux, floatLabel, identify_student_persona,
      meanPairs, stdPairs,
      sampleVarOpt, idxmaxOpt, idxmaxAux, idxminOpt, idxminAux,
      generate_recommendations, personaRecs, weakRecs, dfOneGood, fsOneGood]
  exact ⟨hw, claim_C8 dfOneGood fsOneGood hw⟩

/-- C10: the insufficient-data guard tests only emptiness and the
`accuracy` column; a non-empty table with `accuracy` but without a
`topic` column is not answered with the sentinel — the `groupby` raises
instead. -/
theorem claim_C10 (df : HistDF) (h1 : df.rows.isEmpty = false)
    (h2 : df.hasAccuracy = true) (h3 : df.hasTopic = false) :
    identify_student_persona df = .error keyErrorTopicMsg ∧
      ∀ p : StudentPersona, identify_student_persona df ≠ .ok p := by
  have he : identify_student_persona df = .error keyErrorTopicMsg := by
    simp [identify_student_persona, h1, h2, h3]
  refine ⟨he, fun p hp => ?_⟩
  rw [he] at hp
  cases hp

/-- Non-empty table with an `accuracy` column but no `topic` column. -/
def dfNoTopic : HistDF :=
  { hasTopic := false, hasAccuracy := true, hasDifficulty := true
    hasScore := true, hasSubmissionTime := true
    rows := [{ topic := "A", accuracy := 0, difficulty := 0, score := 0,
               submission_time := "" }] }

/-- Witness for C10 at `dfNoTopic`. -/
theorem claim_C10_witness :
    (dfNoTopic.rows.isEmpty = false ∧ dfNoTopic.hasAccuracy = true ∧
        dfNoTopic.hasTopic = false) ∧
      (identify_student_persona dfNoTopic = .error keyErrorTopicMsg ∧
        ∀ p : StudentPersona, identify_student_persona dfNoTopic ≠ .ok p) :=
  ⟨⟨by decide, by decide, by decide⟩,
    claim_C10 dfNoTopic (by decide) (by decide) (by decide)⟩


/-- Selection made by the claim at one position `i` of the window `w`:
rows at positions `2..N` (indices `1..N-1`) whose accuracy strictly
exceeds that of the immediately preceding row; the first row never
qualifies. -/
def specITop (w : List TrendRow) (i : ℕ) : Option TrendRow :=
  if h : i < w.length then
    if 0 < i then
      if (w.get ⟨i - 1, by omega⟩).accuracy < (w.get ⟨i, h⟩).accuracy
      then some (w.get ⟨i, h⟩) else none
    else none
  else none

/-- The improvement events exactly as the claim words them. -/
def specImprovements (w : List TrendRow) : List TrendRow :=
  (List.range w.length).filterMap (specITop w)

/-- Variant of `specITop` with the virtual predecessor of position `0` made
explicit (used to recurse across the head of the window). -/
def specBody (p : TrendRow) (xs : List TrendRow) (i : ℕ) : Option TrendRow :=
  if h : i < xs.length then
    if (if 0 < i then xs.get ⟨i - 1, by omega⟩ else p).accuracy <
        (xs.get ⟨i, h⟩).accuracy
    then some (xs.get ⟨i, h⟩) else none
  else none

theorem specBody_succ (p y : TrendRow) (ys : List TrendRow) (i : ℕ) :
    specBody p (y :: ys) (i + 1) = specBody y ys i := by
  by_cases h : i < ys.length
  · have h1 : i + 1 < (y :: ys).length := by simp only [List.length_cons]; omega
    unfold specBody
    rw [dif_pos h1, dif_pos h]
    have hget : (y :: ys).get ⟨i + 1, h1⟩ = ys.get ⟨i, h⟩ := by
      simp [List.get_eq_getElem]
    have hprev :
        (if 0 < i + 1 then (y :: ys).get ⟨i + 1 - 1, by omega⟩ else p) =
        (if 0 < i then ys.get ⟨i - 1, by omega⟩ else y) := by
      rw [if_pos (Nat.succ_pos i)]
      rcases i with _ | j
      · simp [List.get_eq_getElem]
      · rw [if_pos (Nat.succ_pos j)]
        show (y :: ys).get ⟨j + 1, by omega⟩ = ys.get ⟨j, by omega⟩
        simp [List.get_eq_getElem]
    rw [hget, hprev]
  · unfold specBody
    rw [dif_neg (by simp only [List.length_cons]; omega), dif_neg h]

theorem specITop_eq_specBody (w : List TrendRow) (p : TrendRow) (i : ℕ)
    (hp : 0 < i) : specITop w i = specBody p w i := by
  unfold specITop specBody
  by_cases h : i < w.length
  · rw [dif_pos h, dif_pos h, if_pos hp, if_pos hp]
  · rw [dif_neg h, dif_neg h]

theorem specITop_zero (w : List TrendRow) : specITop w 0 = none := by
  unfold specITop
  by_cases h : 0 < w.length
  · rw [dif_pos h]; simp
  · rw [dif_neg h]

theorem improvAux_eq_filterMap (xs : List TrendRow) :
    ∀ p : TrendRow,
      improvAux p xs = (List.range xs.length).filterMap (specBody p xs) := by
  induction xs with
  | nil => intro p; rfl
  | cons y ys ih =>
    intro p
    rw [improvAux, List.length_cons, List.range_succ_eq_map,
      List.filterMap_cons, List.filterMap_map]
    have hcomp : (specBody p (y :: ys)) ∘ Nat.succ = specBody y ys := by
      funext i
      exact specBody_succ p y ys i
    rw [hcomp, ← ih y]
    have hzero : specBody p (y :: ys) 0 =
        if p.accuracy < y.accuracy then some y else none := by
      unfold specBody
      rw [dif_pos (by simp only [List.length_cons]; omega :
        (0:ℕ) < (y :: ys).length)]
      simp
    rw [hzero]
    by_cases hc : p.accuracy < y.accuracy
    · rw [if_pos hc, if_pos hc]; rfl
    · rw [if_neg hc, if_neg hc]; rfl

/-- C1: the improvement events are exactly the trend-window rows at
positions `2..N` whose accuracy minus the immediately preceding row's
accuracy is strictly positive; the first row never qualifies, and a
window of `0` or `1` rows yields no events. -/
theorem claim_C1 (w : List TrendRow) :
    improvementsOf w = specImprovements w
    ∧ (w.length ≤ 1 → improvementsOf w = []) := by
  constructor
  · cases w with
    | nil => rfl
    | cons x xs =>
      rw [improvementsOf, specImprovements, List.length_cons,
        List.range_succ_eq_map, List.filterMap_cons, List.filterMap_map,
        specITop_zero]
      have hcomp : (specITop (x :: xs)) ∘ Nat.succ = specBody x xs := by
        funext i
        show specITop (x :: xs) (i + 1) = specBody x xs i
        rw [specITop_eq_specBody (x :: xs) x (i + 1) (Nat.succ_pos i),
          specBody_succ]
      rw [hcomp, ← improvAux_eq_filterMap xs x]
  · intro hlen
    match w, hlen with
    | [], _ => rfl
    | [x], _ => rfl


/-! ## Order facts for code-point string comparison -/

theorem char_toNat_inj {a b : Char} (h : a.toNat = b.toNat) : a = b := by
  apply Char.ext
  apply UInt32.ext
  simpa [Char.toNat] using h

theorem lexLt_trans (a : List Char) : ∀ b c : List Char,
    lexLt a b = true → lexLt b c = true → lexLt a c = true := by
  induction a with
  | nil =>
    intro b c h1 h2
    cases b with
    | nil => simp [lexLt] at h1
    | cons y ys =>
      cases c with
      | nil => simp [lexLt] at h2
      | cons z zs => rfl
  | cons x xs ih =>
    intro b c h1 h2
    cases b with
    | nil => simp [lexLt] at h1
    | cons y ys =>
      cases c with
      | nil => simp [lexLt] at h2
      | cons z zs =>
        rw [lexLt] at h1 h2 ⊢
        by_cases hxy : x.toNat < y.toNat
        · rw [if_pos hxy] at h1
          by_cases hyz : y.toNat < z.toNat
          · rw [if_pos (by omega : x.toNat < z.toNat)]
          · rw [if_neg hyz] at h2
            by_cases hzy : z.toNat < y.toNat
            · rw [if_pos hzy] at h2; simp at h2
            · rw [if_pos (by omega : x.toNat < z.toNat)]
        · rw [if_neg hxy] at h1
          by_cases hyx : y.toNat < x.toNat
          · rw [if_pos hyx] at h1; simp at h1
          · rw [if_neg hyx] at h1
            by_cases hyz : y.toNat < z.toNat
            · rw [if_pos (by omega : x.toNat < z.toNat)]
            · rw [if_neg hyz] at h2
              by_cases hzy : z.toNat < y.toNat
              · rw [if_pos hzy] at h2; simp at h2
              · rw [if_neg hzy] at h2
                rw [if_neg (by omega : ¬ x.toNat < z.toNat),
                  if_neg (by omega : ¬ z.toNat < x.toNat)]
                exact ih ys zs h1 h2

theorem lexLt_conn (a : List Char) : ∀ b : List Char,
    lexLt a b = false → lexLt b a = false → a = b := by
  induction a with
  | nil =>
    intro b h1 _
    cases b with
    | nil => rfl
    | cons y ys => simp [lexLt] at h1
  | cons x xs ih =>
    intro b h1 h2
    cases b with
    | nil => simp [lexLt] at h2
    | cons y ys =>
      rw [lexLt] at h1 h2
      by_cases hxy : x.toNat < y.toNat
      · rw [if_pos hxy] at h1; simp at h1
      · by_cases hyx : y.toNat < x.toNat
        · rw [if_pos hyx] at h2; simp at h2
        · rw [if_neg hxy, if_neg hyx] at h1
          rw [if_neg hyx, if_neg hxy] at h2
          rw [char_toNat_inj (by omega : x.toNat = y.toNat), ih ys h1 h2]

theorem strLt_trans (a b c : String) (h1 : strLt a b = true)
    (h2 : strLt b c = true) : strLt a c = true :=
  lexLt_trans a.data b.data c.data h1 h2

theorem strLt_cases (a b : String) :
    strLt a b = true ∨ strLt b a = true ∨ a = b := by
  by_cases h1 : strLt a b = true
  · exact Or.inl h1
  · by_cases h2 : strLt b a = true
    · exact Or.inr (Or.inl h2)
    · refine Or.inr (Or.inr ?_)
      have hd : a.data = b.data :=
        lexLt_conn a.data b.data (by simpa [Bool.not_eq_true] using h1)
          (by simpa [Bool.not_eq_true] using h2)
      exact String.ext hd

theorem strLe_total (a b : String) : strLe a b = true ∨ strLe b a = true := by
  rcases strLt_cases a b with h | h | h
  · exact Or.inl (by simp [strLe, h])
  · exact Or.inr (by simp [strLe, h])
  · exact Or.inl (by simp [strLe, h])

theorem strLe_trans (a b c : String) (h1 : strLe a b = true)
    (h2 : strLe b c = true) : strLe a c = true := by
  rw [strLe, Bool.or_eq_true, beq_iff_eq] at h1 h2 ⊢
  rcases h1 with h1 | h1
  · rcases h2 with h2 | h2
    · exact Or.inl (strLt_trans a b c h1 h2)
    · subst h2; exact Or.inl h1
  · subst h1; exact h2

/-! ## Properties of the stable insertion sort -/

theorem insertLe_perm (le : α → α → Bool) (r : α) (l : List α) :
    List.Perm (insertLe le r l) (r :: l) := by
  induction l with
  | nil => exact List.Perm.refl _
  | cons x xs ih =>
    rw [insertLe]
    by_cases h : le r x = true
    · rw [if_pos h]
    · rw [if_neg h]
      exact (List.Perm.cons x ih).trans (List.Perm.swap r x xs)

theorem isortLe_perm (le : α → α → Bool) (l : List α) :
    List.Perm (isortLe le l) l := by
  induction l with
  | nil => exact List.Perm.refl _
  | cons x xs ih =>
    exact (insertLe_perm le x (isortLe le xs)).trans (List.Perm.cons x ih)

theorem mem_isortLe (le : α → α → Bool) (l : List α) (y : α) :
    y ∈ isortLe le l ↔ y ∈ l :=
  (isortLe_perm le l).mem_iff

theorem insertLe_pairwise (le : α → α → Bool)
    (htot : ∀ a b, le a b = true ∨ le b a = true)
    (htr : ∀ a b c, le a b = true → le b c = true → le a c = true)
    (r : α) (l : List α) (hl : l.Pairwise (fun a b => le a b = true)) :
    (insertLe le r l).Pairwise (fun a b => le a b = true) := by
  induction l with
  | nil => simp [insertLe]
  | cons x xs ih =>
    rw [List.pairwise_cons] at hl
    obtain ⟨hx, hxs⟩ := hl
    rw [insertLe]
    by_cases h : le r x = true
    · rw [if_pos h]
      refine List.Pairwise.cons ?_ (List.Pairwise.cons hx hxs)
      intro y hy
      rcases List.mem_cons.mp hy with rfl | hy
      · exact h
      · exact htr r x y h (hx y hy)
    · rw [if_neg h]
      refine List.Pairwise.cons ?_ (ih hxs)
      intro y hy
      rcases List.mem_cons.mp (((insertLe_perm le r xs).mem_iff).mp hy)
        with rfl | hy
      · rcases htot x y with hxy | hyx
        · exact hxy
        · exact absurd hyx h
      · exact hx y hy

theorem isortLe_pairwise (le : α → α → Bool)
    (htot : ∀ a b, le a b = true ∨ le b a = true)
    (htr : ∀ a b c, le a b = true → le b c = true → le a c = true)
    (l : List α) :
    (isortLe le l).Pairwise (fun a b => le a b = true) := by
  induction l with
  | nil => simp [isortLe]
  | cons x xs ih => exact insertLe_pairwise le htot htr x (isortLe le xs) ih

/-! ## Order of the grouped topics -/

theorem mem_insertTopic (t : String) (l : List String) (s : String) :
    s ∈ insertTopic t l ↔ s = t ∨ s ∈ l := by
  induction l with
  | nil => simp [insertTopic]
  | cons x xs ih =>
    rw [insertTopic]
    by_cases he : t = x
    · rw [if_pos he]
      subst he
      simp only [List.mem_cons]
      tauto
    · rw [if_neg he]
      by_cases hlt : strLt t x = true
      · rw [if_pos hlt]
        simp only [List.mem_cons]
      · rw [if_neg hlt]
        simp only [List.mem_cons, ih]
        tauto

theorem insertTopic_pairwise (t : String) (l : List String)
    (hl : l.Pairwise (fun a b => strLt a b = true)) :
    (insertTopic t l).Pairwise (fun a b => strLt a b = true) := by
  induction l with
  | nil => simp [insertTopic]
  | cons x xs ih =>
    rw [List.pairwise_cons] at hl
    obtain ⟨hx, hxs⟩ := hl
    rw [insertTopic]
    by_cases he : t = x
    · rw [if_pos he]
      exact List.Pairwise.cons hx hxs
    · rw [if_neg he]
      by_cases hlt : strLt t x = true
      · rw [if_pos hlt]
        refine List.Pairwise.cons ?_ (List.Pairwise.cons hx hxs)
        intro y hy
        rcases List.mem_cons.mp hy with rfl | hy
        · exact hlt
        · exact strLt_trans t x y hlt (hx y hy)
      · rw [if_neg hlt]
        refine List.Pairwise.cons ?_ (ih hxs)
        intro y hy
        rcases (mem_insertTopic t xs y).mp hy with rfl | hy
        · rcases strLt_cases x y with hc | hc | hc
          · exact hc
          · exact absurd hc hlt
          · exact absurd hc.symm he
        · exact hx y hy

/-- The group keys of `groupby("topic")` are iterated in strictly
ascending topic order. -/
theorem sortedTopics_pairwise (rows : List HistRow) :
    (sortedTopics rows).Pairwise (fun a b => strLt a b = true) := by
  induction rows with
  | nil => simp [sortedTopics]
  | cons r rs ih => exact insertTopic_pairwise r.topic (sortedTopics rs) ih

/-! ## The module-level variables of lines 86-124 -/

/-- The variable `topic_stats` as bound at line 86. -/
def pipelineTopicStats (df : HistDF) : List TopicStat :=
  (analyze_performance_data df).1

/-- The variable `recent_trends` as bound at line 86. -/
def pipelineTrends (df : HistDF) : List TrendRow :=
  (analyze_performance_data df).2

/-- The variable `weak_topics` as bound at line 123. -/
def pipelineWeak (df : HistDF) : List TopicStat :=
  (generate_insight_details (pipelineTopicStats df) (pipelineTrends df)).1

/-- C9: with the required columns present, the topic-statistics rows are
in strictly ascending topic order, the weak-topic rows (a filter of
them) therefore are as well, and the weak-topic recommendation lines
are emitted in exactly that order — all regardless of the input row
order, since the grouping sorts its keys. -/
theorem claim_C9 (df : HistDF) (h : requiredColsPresent df = true) :
    (pipelineTopicStats df).Pairwise
      (fun a b => strLt a.topic b.topic = true)
    ∧ (pipelineWeak df).Pairwise (fun a b => strLt a.topic b.topic = true)
    ∧ ∀ p : StudentPersona,
        generate_recommendations (pipelineWeak df) p =
          (if (pipelineWeak df).isEmpty then [encourageMsg]
            else (pipelineWeak df).map
              (fun r => focusMsg r.topic r.accuracy)) ++ personaRecs p := by
  have hstats : (pipelineTopicStats df).Pairwise
      (fun a b => strLt a.topic b.topic = true) := by
    rw [pipelineTopicStats, analyze_performance_data, if_pos h]
    exact List.Pairwise.map (topicStatRow df.rows)
      (fun a b hab => hab) (sortedTopics_pairwise df.rows)
  refine ⟨hstats, ?_, ?_⟩
  · exact List.Pairwise.sublist (List.filter_sublist _) hstats
  · intro p
    rw [generate_recommendations, weakRecs_eq_map]

/-- Two-topic table in scrambled input order, for the C9 witness. -/
def dfTwoTopics : HistDF :=
  { hasTopic := true, hasAccuracy := true, hasDifficulty := true
    hasScore := true, hasSubmissionTime := true
    rows := [{ topic := "B", accuracy := 1 / 2, difficulty := 1, score := 1,
               submission_time := "" },
             { topic := "A", accuracy := 1, difficulty := 1, score := 1,
               submission_time := "" }] }

/-- Witness for C9 at `dfTwoTopics`. -/
theorem claim_C9_witness :
    requiredColsPresent dfTwoTopics = true ∧
      ((pipelineTopicStats dfTwoTopics).Pairwise
        (fun a b => strLt a.topic b.topic = true)
      ∧ (pipelineWeak dfTwoTopics).Pairwise
          (fun a b => strLt a.topic b.topic = true)
      ∧ ∀ p : StudentPersona,
          generate_recommendations (pipelineWeak dfTwoTopics) p =
            (if (pipelineWeak dfTwoTopics).isEmpty then [encourageMsg]
              else (pipelineWeak dfTwoTopics).map
                (fun r => focusMsg r.topic r.accuracy)) ++ personaRecs p) :=
  ⟨by decide, claim_C9 dfTwoTopics (by decide)⟩

/-! ## First-minimum / first-maximum characterisations (C5) -/

/-- Spec-side description of `Series.idxmin` with NaN holes: position
of `l` carrying `(c, some v)` such that every earlier defined value is
strictly larger and every later defined value is no smaller — i.e. `c`
is the topic with the minimum defined standard deviation, ties broken
by first occurrence in iteration order. -/
def FirstMinAt (l : List (String × Option ℚ)) (c : String) (v : ℚ) : Prop :=
  ∃ pre post, l = pre ++ (c, some v) :: post
    ∧ (∀ q ∈ pre, ∀ w, q.2 = some w → v < w)
    ∧ (∀ q ∈ post, ∀ w, q.2 = some w → v ≤ w)

/-- Spec-side description of `Series.idxmax`: position of `l` carrying
`(t, m)` such that every earlier value is strictly smaller and every
later value is no larger — the topic with the maximum mean, ties broken
by first occurrence in iteration order. -/
def FirstMaxAt (l : List (String × ℚ)) (t : String) (m : ℚ) : Prop :=
  ∃ pre post, l = pre ++ (t, m) :: post
    ∧ (∀ q ∈ pre, q.2 < m)
    ∧ (∀ q ∈ post, q.2 ≤ m)

theorem idxminAux_go (l : List (String × Option ℚ)) :
    ∀ (b : String × ℚ) (c : String) (v : ℚ),
      idxminAux (some b) l = some (c, v) →
      ((c, v) = b ∧ ∀ q ∈ l, ∀ w, q.2 = some w → v ≤ w)
      ∨ (v < b.2 ∧ FirstMinAt l c v) := by
  induction l with
  | nil =>
    intro b c v h
    left
    refine ⟨(Option.some.inj h).symm, ?_⟩
    intro q hq
    cases hq
  | cons x rest ih =>
    intro b c v h
    obtain ⟨t, ow⟩ := x
    cases ow with
    | none =>
      have h2 : idxminAux (some b) rest = some (c, v) := h
      rcases ih b c v h2 with ⟨heq, hall⟩ | ⟨hlt, hfm⟩
      · left
        refine ⟨heq, ?_⟩
        intro q hq w hw
        rcases List.mem_cons.mp hq with rfl | hq
        · simp at hw
        · exact hall q hq w hw
      · right
        obtain ⟨pre, post, hsplit, hpre, hpost⟩ := hfm
        refine ⟨hlt, (t, none) :: pre, post, by rw [hsplit, List.cons_append], ?_, hpost⟩
        intro q hq w hw
        rcases List.mem_cons.mp hq with rfl | hq
        · simp at hw
        · exact hpre q hq w hw
    | some w =>
      have hstep : idxminAux (some b) ((t, some w) :: rest) =
          if w < b.2 then idxminAux (some (t, w)) rest
          else idxminAux (some b) rest := rfl
      rw [hstep] at h
      by_cases hc : w < b.2
      · rw [if_pos hc] at h
        rcases ih (t, w) c v h with ⟨heq, hall⟩ | ⟨hlt, hfm⟩
        · have hcv : c = t := congrArg Prod.fst heq
          have hv : v = w := congrArg Prod.snd heq
          right
          refine ⟨by rw [hv]; exact hc, [], rest, ?_, ?_, hall⟩
          · rw [List.nil_append, hcv, hv]
          · intro q hq
            cases hq
        · right
          obtain ⟨pre, post, hsplit, hpre, hpost⟩ := hfm
          refine ⟨lt_trans hlt hc, (t, some w) :: pre, post, by rw [hsplit, List.cons_append],
            ?_, hpost⟩
          intro q hq u hu
          rcases List.mem_cons.mp hq with rfl | hq
          · have : u = w := by simpa using hu.symm
            rw [this]
            exact hlt
          · exact hpre q hq u hu
      · rw [if_neg hc] at h
        rcases ih b c v h with ⟨heq, hall⟩ | ⟨hlt, hfm⟩
        · left
          refine ⟨heq, ?_⟩
          intro q hq u hu
          rcases List.mem_cons.mp hq with rfl | hq
          · have hu2 : u = w := by simpa using hu.symm
            have hv : v = b.2 := congrArg Prod.snd heq
            rw [hu2, hv]
            exact le_of_not_lt hc
          · exact hall q hq u hu
        · right
          obtain ⟨pre, post, hsplit, hpre, hpost⟩ := hfm
          refine ⟨hlt, (t, some w) :: pre, post, by rw [hsplit, List.cons_append], ?_, hpost⟩
          intro q hq u hu
          rcases List.mem_cons.mp hq with rfl | hq
          · have hu2 : u = w := by simpa using hu.symm
            rw [hu2]
            exact lt_of_lt_of_le hlt (le_of_not_lt hc)
          · exact hpre q hq u hu

theorem idxminAux_none_spec (l : List (String × Option ℚ)) :
    ∀ (c : String) (v : ℚ), idxminAux none l = some (c, v) →
      FirstMinAt l c v := by
  induction l with
  | nil =>
    intro c v h
    cases h
  | cons x rest ih =>
    intro c v h
    obtain ⟨t, ow⟩ := x
    cases ow with
    | none =>
      have h2 : idxminAux none rest = some (c, v) := h
      obtain ⟨pre, post, hsplit, hpre, hpost⟩ := ih c v h2
      refine ⟨(t, none) :: pre, post, by rw [hsplit, List.cons_append], ?_, hpost⟩
      intro q hq w hw
      rcases List.mem_cons.mp hq with rfl | hq
      · simp at hw
      · exact hpre q hq w hw
    | some w =>
      have h2 : idxminAux (some (t, w)) rest = some (c, v) := h
      rcases idxminAux_go rest (t, w) c v h2 with ⟨heq, hall⟩ | ⟨hlt, hfm⟩
      · have hcv : c = t := congrArg Prod.fst heq
        have hv : v = w := congrArg Prod.snd heq
        refine ⟨[], rest, ?_, ?_, hall⟩
        · rw [List.nil_append, hcv, hv]
        · intro q hq
          cases hq
      · obtain ⟨pre, post, hsplit, hpre, hpost⟩ := hfm
        refine ⟨(t, some w) :: pre, post, by rw [hsplit, List.cons_append], ?_, hpost⟩
        intro q hq u hu
        rcases List.mem_cons.mp hq with rfl | hq
        · have : u = w := by simpa using hu.symm
          rw [this]
          exact hlt
        · exact hpre q hq u hu

theorem idxminAux_some_isSome (l : List (String × Option ℚ)) :
    ∀ b : String × ℚ, ∃ cv, idxminAux (some b) l = some cv := by
  induction l with
  | nil =>
    intro b
    exact ⟨b, rfl⟩
  | cons x rest ih =>
    intro b
    obtain ⟨t, ow⟩ := x
    cases ow with
    | none => exact ih b
    | some w =>
      have hstep : idxminAux (some b) ((t, some w) :: rest) =
          if w < b.2 then idxminAux (some (t, w)) rest
          else idxminAux (some b) rest := rfl
      rw [hstep]
      by_cases hc : w < b.2
      · rw [if_pos hc]
        exact ih (t, w)
      · rw [if_neg hc]
        exact ih b

theorem idxmin_some_of_exists (l : List (String × Option ℚ)) :
    (∃ q ∈ l, q.2.isSome = true) → ∃ cv, idxminAux none l = some cv := by
  induction l with
  | nil =>
    intro h
    obtain ⟨q, hq, _⟩ := h
    cases hq
  | cons x rest ih =>
    intro h
    obtain ⟨t, ow⟩ := x
    cases ow with
    | none =>
      apply ih
      obtain ⟨q, hq, hs⟩ := h
      rcases List.mem_cons.mp hq with rfl | hq
      · simp at hs
      · exact ⟨q, hq, hs⟩
    | some w =>
      exact idxminAux_some_isSome rest (t, w)

theorem idxmaxAux_go (l : List (String × ℚ)) :
    ∀ (b : String × ℚ) (t : String) (m : ℚ),
      idxmaxAux b l = (t, m) →
      ((t, m) = b ∧ ∀ q ∈ l, q.2 ≤ m)
      ∨ (b.2 < m ∧ FirstMaxAt l t m) := by
  induction l with
  | nil =>
    intro b t m h
    left
    refine ⟨h.symm, ?_⟩
    intro q hq
    cases hq
  | cons x rest ih =>
    intro b t m h
    obtain ⟨s, w⟩ := x
    have hstep : idxmaxAux b ((s, w) :: rest) =
        if b.2 < w then idxmaxAux (s, w) rest else idxmaxAux b rest := rfl
    rw [hstep] at h
    by_cases hc : b.2 < w
    · rw [if_pos hc] at h
      rcases ih (s, w) t m h with ⟨heq, hall⟩ | ⟨hlt, hfm⟩
      · have hm : m = w := congrArg Prod.snd heq
        right
        refine ⟨by rw [hm]; exact hc, [], rest, ?_, ?_, hall⟩
        · rw [List.nil_append, heq]
        · intro q hq
          cases hq
      · right
        obtain ⟨pre, post, hsplit, hpre, hpost⟩ := hfm
        refine ⟨lt_trans hc hlt, (s, w) :: pre, post, by rw [hsplit, List.cons_append], ?_,
          hpost⟩
        intro q hq
        rcases List.mem_cons.mp hq with rfl | hq
        · exact hlt
        · exact hpre q hq
    · rw [if_neg hc] at h
      rcases ih b t m h with ⟨heq, hall⟩ | ⟨hlt, hfm⟩
      · left
        refine ⟨heq, ?_⟩
        intro q hq
        rcases List.mem_cons.mp hq with rfl | hq
        · have hm : m = b.2 := congrArg Prod.snd heq
          rw [hm]
          exact le_of_not_lt hc
        · exact hall q hq
      · right
        obtain ⟨pre, post, hsplit, hpre, hpost⟩ := hfm
        refine ⟨hlt, (s, w) :: pre, post, by rw [hsplit, List.cons_append], ?_, hpost⟩
        intro q hq
        rcases List.mem_cons.mp hq with rfl | hq
        · exact lt_of_le_of_lt (le_of_not_lt hc) hlt
        · exact hpre q hq

theorem idxmaxOpt_spec (l : List (String × ℚ)) (t : String) (m : ℚ)
    (h : idxmaxOpt l = some (t, m)) : FirstMaxAt l t m := by
  cases l with
  | nil => cases h
  | cons q rest =>
    have h2 : idxmaxAux q rest = (t, m) := Option.some.inj h
    rcases idxmaxAux_go rest q t m h2 with ⟨heq, hall⟩ | ⟨hlt, hfm⟩
    · refine ⟨[], rest, ?_, ?_, hall⟩
      · rw [List.nil_append, heq]
      · intro x hx
        cases hx
    · obtain ⟨pre, post, hsplit, hpre, hpost⟩ := hfm
      refine ⟨q :: pre, post, by rw [hsplit, List.cons_append], ?_, hpost⟩
      intro x hx
      rcases List.mem_cons.mp hx with rfl | hx
      · exact hlt
      · exact hpre x hx

theorem insertTopic_ne_nil (t : String) (l : List String) :
    insertTopic t l ≠ [] := by
  cases l with
  | nil => simp [insertTopic]
  | cons x xs =>
    rw [insertTopic]
    by_cases he : t = x
    · rw [if_pos he]
      simp
    · rw [if_neg he]
      by_cases hlt : strLt t x = true
      · rw [if_pos hlt]
        simp
      · rw [if_neg hlt]
        simp

theorem sortedTopics_ne_nil (rows : List HistRow) (h : rows ≠ []) :
    sortedTopics rows ≠ [] := by
  cases rows with
  | nil => exact absurd rfl h
  | cons r rs => exact insertTopic_ne_nil r.topic (sortedTopics rs)

/-- C5 (amended): for every non-empty historical table with `accuracy`
and `topic` columns in which at least one topic has a defined (non-NaN)
standard deviation, the Persona Identifier returns a structured result
whose Consistent Topic is the first topic (in group iteration order)
attaining the minimum defined standard deviation and whose Top
Performing Topic is the first topic attaining the maximum mean
accuracy. -/
theorem claim_C5 (df : HistDF) (h1 : df.rows.isEmpty = false)
    (h2 : df.hasAccuracy = true) (h3 : df.hasTopic = true)
    (h4 : ∃ q ∈ stdPairs df.rows, q.2.isSome = true) :
    ∃ c v t m,
      identify_student_persona df = .ok (.dict (some c) t)
      ∧ FirstMinAt (stdPairs df.rows) c v
      ∧ FirstMaxAt (meanPairs df.rows) t m := by
  obtain ⟨⟨c, v⟩, hmin⟩ := idxmin_some_of_exists (stdPairs df.rows) h4
  have hfm : FirstMinAt (stdPairs df.rows) c v :=
    idxminAux_none_spec (stdPairs df.rows) c v hmin
  have hrows : df.rows ≠ [] := by
    intro he
    rw [he] at h1
    simp at h1
  have hmp : meanPairs df.rows ≠ [] := by
    rw [meanPairs]
    intro he
    exact sortedTopics_ne_nil df.rows hrows (List.map_eq_nil_iff.mp he)
  obtain ⟨q0, rest, hml⟩ := List.exists_cons_of_ne_nil hmp
  have hmax : idxmaxOpt (meanPairs df.rows) = some (idxmaxAux q0 rest) := by
    rw [hml]
    rfl
  have hfmax : FirstMaxAt (meanPairs df.rows) (idxmaxAux q0 rest).1
      (idxmaxAux q0 rest).2 :=
    idxmaxOpt_spec (meanPairs df.rows) _ _ hmax
  refine ⟨c, v, (idxmaxAux q0 rest).1, (idxmaxAux q0 rest).2, ?_, hfm, hfmax⟩
  rw [identify_student_persona,
    if_neg (by simp [h1, h2] :
      ¬ (df.rows.isEmpty || !df.hasAccuracy) = true),
    if_neg (by simp [h3] : ¬ (!df.hasTopic) = true),
    hmax]
  rw [idxminOpt, hmin]
  rfl

/-- One-topic, one-row table (all flags present): the sample standard
deviation of every group is NaN. -/
def dfSingle : HistDF :=
  { hasTopic := true, hasAccuracy := true, hasDifficulty := true
    hasScore := true, hasSubmissionTime := true
    rows := [{ topic := "A", accuracy := 1 / 2, difficulty := 1, score := 1,
               submission_time := "" }] }

/-- Counterexample to C5 as stated: `dfSingle` is non-empty and has an
`accuracy` column, yet the Persona Identifier's result carries NaN
(`none`) — not any topic — in the Consistent Topic field, because no
topic has a defined standard deviation (`stdPairs` is all-`none`), so
no "topic with the minimum standard deviation, NaN excluded" exists. -/
theorem claim_C5_counterexample :
    identify_student_persona dfSingle = .ok (.dict none "A")
    ∧ stdPairs dfSingle.rows = [("A", none)]
    ∧ dfSingle.rows.isEmpty = false
    ∧ dfSingle.hasAccuracy = true := by
  refine ⟨?_, ?_, rfl, rfl⟩
  · norm_num [identify_student_persona, dfSingle, stdPairs, meanPairs,
      sortedTopics, insertTopic, groupRows, sampleVarOpt, listMean,
      idxminOpt, idxminAux, idxmaxOpt, idxmaxAux]
  · norm_num [dfSingle, stdPairs, sortedTopics, insertTopic, groupRows,
      sampleVarOpt, listMean]

/-- One topic with two rows: its standard deviation is defined. -/
def dfVar : HistDF :=
  { hasTopic := true, hasAccuracy := true, hasDifficulty := true
    hasScore := true, hasSubmissionTime := true
    rows := [{ topic := "A", accuracy := 4 / 10, difficulty := 1, score := 1,
               submission_time := "" },
             { topic := "A", accuracy := 6 / 10, difficulty := 1, score := 1,
               submission_time := "" }] }

/-- Witness for the amended C5 at `dfVar`. -/
theorem claim_C5_witness :
    dfVar.rows.isEmpty = false ∧ dfVar.hasAccuracy = true ∧
      dfVar.hasTopic = true ∧ (∃ q ∈ stdPairs dfVar.rows, q.2.isSome = true) ∧
      ∃ c v t m,
        identify_student_persona dfVar = .ok (.dict (some c) t)
        ∧ FirstMinAt (stdPairs dfVar.rows) c v
        ∧ FirstMaxAt (meanPairs dfVar.rows) t m := by
  have hstd : stdPairs dfVar.rows = [("A", some (1 / 50))] := by
    norm_num [dfVar, stdPairs, sortedTopics, insertTopic, groupRows,
      sampleVarOpt, listMean]
  have h4 : ∃ q ∈ stdPairs dfVar.rows, q.2.isSome = true := by
    rw [hstd]
    exact ⟨("A", some (1 / 50)), List.mem_cons_self _ _, rfl⟩
  exact ⟨rfl, rfl, rfl, h4, claim_C5 dfVar rfl rfl rfl h4⟩

end QuizAnalysis
